import Mathlib

/-!
Verification of the RAG document-processing pipeline of this repository
(`app/services/rag_processor.py` and `app/db/models.py`), as a shallow
embedding in Lean 4.

Modelling conventions:
* Python `float` columns (`file_size_mb`, `progress_percent`, ...) are
  modelled as `ℚ` (the claims are about which values are aggregated and
  compared, not about floating-point rounding).
* Python `str` is `String`; document text is `List Char` so that slicing
  is explicit.
* Timestamps are abstracted to a `Bool` "is set" flag where a claim only
  cares whether the column was written.
* The SQLAlchemy session is a record `DB` of the three tables the
  pipeline touches; ORM object mutation followed by `commit` is modelled
  as a first-match in-place row update.
* The four stage calls `_extract_text`, `_generate_embeddings`,
  `_index_embeddings` perform external effects (file IO, sleeping,
  network stubs) and may raise; they are modelled as an environment
  `StageEnv` of functions returning `Except String α` (the `String` is
  `str(e)` of the raised exception).  `_chunk_text` is pure and is
  embedded directly; its `while` loop is given explicit fuel because it
  does not terminate for every parameter combination.
-/

/-- `RAGDocument` row (`app/db/models.py`), restricted to the columns the
pipeline reads or writes. -/
structure RAGDocument where
  id : String
  workspace_id : String
  filename : String
  file_type : String
  file_size_mb : ℚ
  file_path : String
  status : String
  error_message : Option String
  chunk_count : Option Nat
  hasProcessedDate : Bool
deriving Repr, DecidableEq

/-- `RAGWorkspace` row (`app/db/models.py`), restricted to the columns the
pipeline reads or writes. -/
structure RAGWorkspace where
  id : String
  name : String
  status : String
  embedding_model : String
  vector_store : String
  chunk_size : Int
  chunk_overlap : Int
  total_documents : Nat
  total_chunks : Nat
  storage_size_mb : ℚ
  processing_time_sec : Option ℚ
deriving Repr, DecidableEq

/-- `RAGProcessingLog` row (`app/db/models.py`). -/
structure RAGProcessingLog where
  workspace_id : String
  step : String
  status : String
  progress_percent : ℚ
  current_file : Option String
  total_files : Nat
  processed_files : Nat
  estimated_time_remaining : Option Int
  error_message : Option String
  hasCompletedAt : Bool
deriving Repr, DecidableEq

/-- The three tables the pipeline touches.  `logs` is append-only. -/
structure DB where
  workspaces : List RAGWorkspace
  documents : List RAGDocument
  logs : List RAGProcessingLog
deriving Repr, DecidableEq

/-- `get_workspace_by_id` (`app/db/models.py`):
`db.query(RAGWorkspace).filter(RAGWorkspace.id == workspace_id).first()`. -/
def getWorkspaceById (db : DB) (workspace_id : String) : Option RAGWorkspace :=
  db.workspaces.find? (fun w => w.id == workspace_id)

/-- Mutation of the first ORM object whose `id` matches (SQLAlchemy keeps
one object per primary key; the code mutates that object and commits). -/
def setWorkspace (ws : List RAGWorkspace) (wid : String)
    (f : RAGWorkspace → RAGWorkspace) : List RAGWorkspace :=
  match ws with
  | [] => []
  | w :: rest => if w.id = wid then f w :: rest else w :: setWorkspace rest wid f

/-- Same, for document rows. -/
def setDocument (ds : List RAGDocument) (did : String)
    (f : RAGDocument → RAGDocument) : List RAGDocument :=
  match ds with
  | [] => []
  | d :: rest => if d.id = did then f d :: rest else d :: setDocument rest did f

/-- The three assignments `update_workspace_metrics` performs on the
fetched workspace row, as a function of the current document table:
`documents = db.query(RAGDocument).filter(workspace_id == wid).all()`,
then `total_documents = len(documents)`,
`storage_size_mb = sum(doc.file_size_mb for doc in documents)`,
`total_chunks = sum(doc.chunk_count or 0 for doc in documents)`. -/
def metricsUpdate (docs : List RAGDocument) (workspace_id : String)
    (w : RAGWorkspace) : RAGWorkspace :=
  let documents := docs.filter (fun d => d.workspace_id == workspace_id)
  { w with
    total_documents := documents.length
    storage_size_mb := (documents.map (fun d => d.file_size_mb)).sum
    total_chunks := (documents.map (fun d => d.chunk_count.getD 0)).sum }

/-- `update_workspace_metrics` (`app/db/models.py`): recompute
`total_documents`, `storage_size_mb`, `total_chunks` from the current
document rows of the workspace; no-op when the workspace is missing. -/
def updateWorkspaceMetrics (db : DB) (workspace_id : String) : DB :=
  match getWorkspaceById db workspace_id with
  | none => db
  | some _ =>
    let f := metricsUpdate db.documents workspace_id
    { db with workspaces := setWorkspace db.workspaces workspace_id f }

/-! ## `_chunk_text` (`app/services/rag_processor.py`)

```
chunks = []
start = 0
while start < len(text):
    end = start + chunk_size
    chunk = text[start:end]
    chunks.append(chunk)
    start = end - chunk_overlap
return chunks
```

`chunk_size` and `chunk_overlap` are Python ints, so the loop variables
are modelled as `Int`.  Python slice semantics (negative indices count
from the end, out-of-range indices clamp) are embedded in `pySlice`.
The `while` loop is given explicit fuel; `none` means the given fuel was
exhausted before the loop finished. -/

/-- Resolve one Python slice bound against a sequence of length `n`. -/
def sliceIdx (n : Nat) (i : Int) : Nat :=
  (((if i < 0 then (n : Int) + i else i).toNat)).min n

/-- Python `text[a:b]`. -/
def pySlice (text : List Char) (a b : Int) : List Char :=
  (text.take (sliceIdx text.length b)).drop (sliceIdx text.length a)

/-- The `while` loop of `_chunk_text`, with explicit fuel. -/
def chunkLoop (text : List Char) (chunk_size chunk_overlap : Int) :
    Nat → Int → List (List Char) → Option (List (List Char))
  | 0, _, _ => none
  | fuel + 1, start, chunks =>
    if start < (text.length : Int) then
      chunkLoop text chunk_size chunk_overlap fuel
        (start + chunk_size - chunk_overlap)
        (chunks ++ [pySlice text start (start + chunk_size)])
    else
      some chunks

/-- `_chunk_text text chunk_size chunk_overlap`, run with the given fuel. -/
def chunkTextFuel (text : List Char) (chunk_size chunk_overlap : Int)
    (fuel : Nat) : Option (List (List Char)) :=
  chunkLoop text chunk_size chunk_overlap fuel 0 []

/-- Number of windows `_chunk_text` produces over a text of length `len`
when the start advances by `step ≥ 1` each iteration. -/
def numChunks (len step : Nat) : Nat :=
  (len + step - 1) / step

/-! ## The processing run (`RAGProcessor.process_workspace`)

The four stage calls are external capabilities.  `_extract_text` reads
the file system and may raise (`open` on a txt file); the embedding and
indexing calls are stubs standing for external services and are treated,
like extraction, as functions of the environment that either return a
value or raise with message `str(e)`.  `_chunk_text` is the pure
function embedded above and is called with the workspace's
`chunk_size` / `chunk_overlap`. -/

/-- One element of the list `_generate_embeddings` returns (the fake
vector itself is irrelevant to every claim). -/
structure Embedding where
  chunk_index : Nat
  chunk_text : List Char
  model : String
deriving Repr, DecidableEq

/-- The external behaviour of the three effectful stage calls.
`Except.error m` models the call raising an exception with
`str(e) = m`. -/
structure StageEnv where
  extractText : RAGDocument → Except String (List Char)
  generateEmbeddings : List (List Char) → String → Except String (List Embedding)
  indexEmbeddings : List Embedding → String → String → Except String Unit

/-- The log row `_log_step` adds and commits. -/
def logStepEntry (workspace_id step : String) (progress : ℚ)
    (current_file : String) (total_files processed_files : Nat) :
    RAGProcessingLog :=
  { workspace_id := workspace_id
    step := step
    status := "in_progress"
    progress_percent := progress
    current_file := some current_file
    total_files := total_files
    processed_files := processed_files
    estimated_time_remaining :=
      some (max 0 (((total_files : Int) - processed_files) * 30))
    error_message := none
    hasCompletedAt := false }

/-- The log row `_log_error` adds and commits (unset columns keep their
model defaults). -/
def logErrorEntry (workspace_id error_message : String) : RAGProcessingLog :=
  { workspace_id := workspace_id
    step := "error"
    status := "error"
    progress_percent := 0
    current_file := none
    total_files := 0
    processed_files := 0
    estimated_time_remaining := none
    error_message := some error_message
    hasCompletedAt := false }

/-- The final log row `_complete_processing` adds. -/
def completedEntry (workspace_id : String) : RAGProcessingLog :=
  { workspace_id := workspace_id
    step := "completed"
    status := "completed"
    progress_percent := 100
    current_file := none
    total_files := 0
    processed_files := 0
    estimated_time_remaining := none
    error_message := none
    hasCompletedAt := true }

/-- Append one committed log row. -/
def addLog (db : DB) (e : RAGProcessingLog) : DB :=
  { db with logs := db.logs ++ [e] }

/-- `doc.status = "error"; doc.error_message = str(e)`. -/
def markError (m : String) (d : RAGDocument) : RAGDocument :=
  { d with status := "error", error_message := some m }

/-- `doc.status = "processed"; doc.chunk_count = len(chunks);
doc.processed_date = datetime.utcnow()`. -/
def markProcessed (n : Nat) (d : RAGDocument) : RAGDocument :=
  { d with status := "processed", chunk_count := some n, hasProcessedDate := true }

/-- The pending-document query of `process_workspace`:
`db.query(RAGDocument).filter(workspace_id == wid, status == "uploaded").all()`. -/
def pendingDocs (db : DB) (workspace_id : String) : List RAGDocument :=
  db.documents.filter (fun d => d.workspace_id == workspace_id && d.status == "uploaded")

/-- `_complete_processing`: set the workspace ready, recompute metrics,
append the final `completed` entry. -/
def completeProcessing (workspace_id : String) (db : DB) : DB :=
  let ready := fun (w : RAGWorkspace) =>
    { w with status := "ready", processing_time_sec := some 60 }
  let db1 := { db with workspaces := setWorkspace db.workspaces workspace_id ready }
  let db2 := updateWorkspaceMetrics db1 workspace_id
  addLog db2 (completedEntry workspace_id)

/-- Net result of the four stage calls for one document: either a chunk
count (success), an exception message (the per-document `except` branch
fires), or divergence of the `_chunk_text` loop. -/
inductive DocResult
  | ok (chunkCount : Nat)
  | fail (msg : String)
  | hang
deriving Repr, DecidableEq

/-- Which of the three outcomes the stage calls produce for `doc`. -/
def docRun (env : StageEnv) (w : RAGWorkspace) (doc : RAGDocument) : DocResult :=
  match env.extractText doc with
  | .error m => .fail m
  | .ok text =>
    match chunkTextFuel text w.chunk_size w.chunk_overlap (text.length + 1) with
    | none => .hang
    | some chunks =>
      match env.generateEmbeddings chunks w.embedding_model with
      | .error m => .fail m
      | .ok embeddings =>
        match env.indexEmbeddings embeddings w.vector_store doc.id with
        | .error m => .fail m
        | .ok _ => .ok chunks.length

/-- The body of the per-document `try` block: the four log-then-stage
steps, then the document update, with the per-document `except` branch.
Returns `.inl db` when `_chunk_text` never returns (the run is stuck at
that database state), else `.inr (db, processed_files)`. -/
def processDocument (env : StageEnv) (w : RAGWorkspace) (doc : RAGDocument)
    (total_files processed_files : Nat) (db : DB) : DB ⊕ (DB × Nat) :=
  let db := addLog db (logStepEntry w.id "extracting"
    ((processed_files : ℚ) / (total_files : ℚ) * 100)
    doc.filename total_files processed_files)
  match env.extractText doc with
  | .error m => .inr (⟨db.workspaces, setDocument db.documents doc.id (markError m), db.logs⟩,
      processed_files)
  | .ok text =>
    let db := addLog db (logStepEntry w.id "chunking"
      (((processed_files : ℚ) + 3/10) / (total_files : ℚ) * 100)
      doc.filename total_files processed_files)
    match chunkTextFuel text w.chunk_size w.chunk_overlap (text.length + 1) with
    | none => .inl db
    | some chunks =>
      let db := addLog db (logStepEntry w.id "embedding"
        (((processed_files : ℚ) + 6/10) / (total_files : ℚ) * 100)
        doc.filename total_files processed_files)
      match env.generateEmbeddings chunks w.embedding_model with
      | .error m => .inr (⟨db.workspaces, setDocument db.documents doc.id (markError m),
          db.logs⟩, processed_files)
      | .ok embeddings =>
        let db := addLog db (logStepEntry w.id "indexing"
          (((processed_files : ℚ) + 9/10) / (total_files : ℚ) * 100)
          doc.filename total_files processed_files)
        match env.indexEmbeddings embeddings w.vector_store doc.id with
        | .error m => .inr (⟨db.workspaces, setDocument db.documents doc.id (markError m),
            db.logs⟩, processed_files)
        | .ok _ => .inr (⟨db.workspaces,
            setDocument db.documents doc.id (markProcessed chunks.length), db.logs⟩,
            processed_files + 1)

/-- The `for doc in documents` loop. -/
def runLoop (env : StageEnv) (w : RAGWorkspace) (total_files : Nat) :
    List RAGDocument → Nat → DB → DB ⊕ (DB × Nat)
  | [], processed_files, db => .inr (db, processed_files)
  | doc :: rest, processed_files, db =>
    match processDocument env w doc total_files processed_files db with
    | .inl dbh => .inl dbh
    | .inr (db2, pf2) => runLoop env w total_files rest pf2 db2

/-- How one call of `process_workspace` ends: normal return, an
exception escaping to the caller, or no return at all. -/
inductive RunResult
  | ok
  | raised (msg : String)
  | hang
deriving Repr, DecidableEq

/-- Process-level state: the database plus the processor's
`is_processing` dictionary (`.get(wid, False)` is function application)
and the list of asyncio tasks created so far. -/
structure SysState where
  db : DB
  isProcessing : String → Bool
  tasks : List String

/-- State after the run body: the database as left by the body, and the
registry flag as left for `workspace_id` (`false` whenever the `finally`
branch ran, `true` when the coroutine never reached it). -/
def SysState.after (st : SysState) (workspace_id : String) (db : DB)
    (flag : Bool) : SysState :=
  { st with
    db := db
    isProcessing := fun x => if x = workspace_id then flag else st.isProcessing x }

/-- `RAGProcessor.process_workspace(workspace_id, db)`, including its
`try`/`except`/`finally` structure.

When the workspace is not found, the code raises, the `except` branch
writes the error log entry, and then `workspace.status = "error"`
dereferences `None`, so an `AttributeError` escapes (the `finally`
branch still clears the flag).  When `_chunk_text` diverges the
coroutine never finishes: the flag stays `True` and no later statement
runs. -/
def processWorkspace (env : StageEnv) (workspace_id : String) (st : SysState) :
    RunResult × SysState :=
  match getWorkspaceById st.db workspace_id with
  | none =>
    let db := addLog st.db (logErrorEntry workspace_id "Workspace not found")
    (.raised "AttributeError: NoneType object has no attribute status",
      st.after workspace_id db false)
  | some w =>
    let documents := pendingDocs st.db workspace_id
    if documents.isEmpty then
      (.ok, st.after workspace_id (completeProcessing workspace_id st.db) false)
    else
      match runLoop env w documents.length documents 0 st.db with
      | .inl dbh => (.hang, st.after workspace_id dbh true)
      | .inr (db2, _) =>
        (.ok, st.after workspace_id (completeProcessing workspace_id db2) false)

/-- `start_document_processing`: unconditionally create an asyncio task
for `process_workspace` (no registry check happens before scheduling). -/
def startDocumentProcessing (workspace_id : String) (st : SysState) : SysState :=
  { st with tasks := st.tasks ++ [workspace_id] }

/-- `is_workspace_processing`: `processor.is_processing.get(workspace_id, False)`. -/
def isWorkspaceProcessing (st : SysState) (workspace_id : String) : Bool :=
  st.isProcessing workspace_id

/-- `processor.is_processing[workspace_id] = b`. -/
def setFlag (st : SysState) (workspace_id : String) (b : Bool) : SysState :=
  { st with isProcessing := fun x => if x = workspace_id then b else st.isProcessing x }

/-- The four `in_progress` rows `process_workspace` logs for one
document, in source order, as functions of the loop counters. -/
def docLogs (workspace_id filename : String) (total_files processed_files : Nat) :
    List RAGProcessingLog :=
  [ logStepEntry workspace_id "extracting"
      ((processed_files : ℚ) / (total_files : ℚ) * 100)
      filename total_files processed_files,
    logStepEntry workspace_id "chunking"
      (((processed_files : ℚ) + 3/10) / (total_files : ℚ) * 100)
      filename total_files processed_files,
    logStepEntry workspace_id "embedding"
      (((processed_files : ℚ) + 6/10) / (total_files : ℚ) * 100)
      filename total_files processed_files,
    logStepEntry workspace_id "indexing"
      (((processed_files : ℚ) + 9/10) / (total_files : ℚ) * 100)
      filename total_files processed_files ]

/-- The row update the loop applies to a document with the given stage
outcome. -/
def resultUpdate : DocResult → RAGDocument → RAGDocument
  | .ok n => markProcessed n
  | .fail m => markError m
  | .hang => id

/-- Document table after the loop has handled every document of `ds`. -/
def updatedDocs (env : StageEnv) (w : RAGWorkspace) (ds : List RAGDocument)
    (docs : List RAGDocument) : List RAGDocument :=
  ds.foldl (fun acc d => setDocument acc d.id (resultUpdate (docRun env w d))) docs

/-- Document lookup by primary key. -/
def findDocById (db : DB) (did : String) : Option RAGDocument :=
  db.documents.find? (fun d => d.id == did)

/-- How many of the four log rows the loop writes for `doc` before its
stage outcome is decided (the row is written before the stage call). -/
def docLogCount (env : StageEnv) (w : RAGWorkspace) (doc : RAGDocument) : Nat :=
  match env.extractText doc with
  | .error _ => 1
  | .ok text =>
    match chunkTextFuel text w.chunk_size w.chunk_overlap (text.length + 1) with
    | none => 2
    | some chunks =>
      match env.generateEmbeddings chunks w.embedding_model with
      | .error _ => 3
      | .ok embeddings =>
        match env.indexEmbeddings embeddings w.vector_store doc.id with
        | .error _ => 4
        | .ok _ => 4

/-- The progress percentages of the four rows of `docLogs`, in order. -/
def progressQuad (total_files processed_files : Nat) : List ℚ :=
  [ (processed_files : ℚ) / (total_files : ℚ) * 100,
    ((processed_files : ℚ) + 3/10) / (total_files : ℚ) * 100,
    ((processed_files : ℚ) + 6/10) / (total_files : ℚ) * 100,
    ((processed_files : ℚ) + 9/10) / (total_files : ℚ) * 100 ]

/-- The database carried by either outcome of the loop. -/
def runDB : DB ⊕ (DB × Nat) → DB
  | .inl db => db
  | .inr (db, _) => db

/-! ## Concrete inputs used by witnesses and counterexamples -/

/-- Environment whose stage calls always succeed (extraction yields an
empty text). -/
def envTriv : StageEnv :=
  { extractText := fun _ => .ok []
    generateEmbeddings := fun _ _ => .ok []
    indexEmbeddings := fun _ _ _ => .ok () }

/-- Environment mirroring the source stubs on a six-character text,
except that the vector-store call fails for document `d1`. -/
def envFail1 : StageEnv :=
  { extractText := fun _ => .ok (List.replicate 6 'a')
    generateEmbeddings := fun chunks m =>
      .ok (chunks.enum.map (fun p => ⟨p.1, p.2, m⟩))
    indexEmbeddings := fun _ _ document_id =>
      if document_id == "d1" then .error "vector store unavailable" else .ok () }

/-- Empty process state. -/
def stEmpty : SysState :=
  { db := ⟨[], [], []⟩, isProcessing := fun _ => false, tasks := [] }

/-- A workspace with `chunk_size = 4`, `chunk_overlap = 1`. -/
def wsA : RAGWorkspace :=
  { id := "w"
    name := "ws"
    status := "processing"
    embedding_model := "bge-m3"
    vector_store := "milvus"
    chunk_size := 4
    chunk_overlap := 1
    total_documents := 0
    total_chunks := 0
    storage_size_mb := 0
    processing_time_sec := none }

/-- An uploaded document of `wsA`. -/
def docA : RAGDocument :=
  { id := "d1"
    workspace_id := "w"
    filename := "a.txt"
    file_type := "txt"
    file_size_mb := 2
    file_path := "/files/a.txt"
    status := "uploaded"
    error_message := none
    chunk_count := none
    hasProcessedDate := false }

/-- A second uploaded document of `wsA`. -/
def docB : RAGDocument :=
  { docA with id := "d2", filename := "b.txt", file_size_mb := 3 }

/-- State in which a run for `wsA` is already active (registry flag set)
and one document is pending. -/
def stActive : SysState :=
  { db := ⟨[wsA], [docA], []⟩, isProcessing := fun x => x == "w", tasks := ["w"] }

/-- Idle state with two pending documents. -/
def stTwoDocs : SysState :=
  { db := ⟨[wsA], [docA, docB], []⟩, isProcessing := fun _ => false, tasks := [] }

/-! ### Facts about the chunking loop -/

/-- When `chunk_overlap ≥ chunk_size` the start position never increases,
so from any start below the text length the loop never exits. -/
lemma chunkLoop_none_of_le (text : List Char) (size overlap : Int)
    (h : size ≤ overlap) :
    ∀ (fuel : Nat) (start : Int) (acc : List (List Char)),
      start < (text.length : Int) →
      chunkLoop text size overlap fuel start acc = none := by
  intro fuel
  induction fuel with
  | zero => intro start acc _; rfl
  | succ n ih =>
    intro start acc hlt
    simp only [chunkLoop, if_pos hlt]
    exact ih _ _ (by omega)

/-- When `chunk_overlap < chunk_size` the start position strictly
increases, so fuel `text.length + 1` always suffices. -/
lemma chunkLoop_isSome_of_lt (text : List Char) (size overlap : Int)
    (h : overlap < size) :
    ∀ (fuel : Nat) (start : Int) (acc : List (List Char)),
      (text.length : Int) - start ≤ fuel →
      (chunkLoop text size overlap (fuel + 1) start acc).isSome := by
  intro fuel
  induction fuel with
  | zero =>
    intro start acc hle
    have hge : ¬ start < (text.length : Int) := by omega
    simp [chunkLoop, hge]
  | succ n ih =>
    intro start acc hle
    by_cases hlt : start < (text.length : Int)
    · simp only [chunkLoop, if_pos hlt]
      exact ih _ _ (by omega)
    · simp [chunkLoop, hlt]

/-- Python slicing with in-range natural bounds is `drop`-then-`take`. -/
lemma pySlice_natCast (text : List Char) (a s : Nat) :
    pySlice text (a : Int) ((a : Int) + (s : Int)) = (text.drop a).take s := by
  have ha : ¬ ((a : Int) < 0) := by omega
  have hab : ¬ ((a : Int) + (s : Int) < 0) := by omega
  have h1 : sliceIdx text.length (a : Int) = min a text.length := by
    simp [sliceIdx, ha]
  have h2 : sliceIdx text.length ((a : Int) + (s : Int)) = min (a + s) text.length := by
    have : ((a : Int) + (s : Int)).toNat = a + s := by omega
    simp [sliceIdx, hab, this]
  rw [pySlice, h1, h2]
  rcases Nat.le_total a text.length with hle | hle
  · rw [Nat.min_eq_left hle]
    rcases Nat.le_total (a + s) text.length with hle2 | hle2
    · rw [Nat.min_eq_left hle2, List.take_drop, Nat.add_comm a s]
    · rw [Nat.min_eq_right hle2, List.take_length]
      rw [List.take_of_length_le (by simp; omega)]
  · have h3 : List.drop text.length (List.take ((a + s) ⊓ text.length) text) = [] :=
      List.drop_eq_nil_of_le (by simp)
    have h4 : List.drop a text = [] := List.drop_eq_nil_of_le hle
    rw [Nat.min_eq_right hle, h3, h4]
    simp

/-- One unfolding step of the loop. -/
lemma chunkLoop_succ (text : List Char) (size overlap : Int) (fuel : Nat)
    (start : Int) (acc : List (List Char)) :
    chunkLoop text size overlap (fuel + 1) start acc =
      if start < (text.length : Int) then
        chunkLoop text size overlap fuel (start + size - overlap)
          (acc ++ [pySlice text start (start + size)])
      else
        some acc := rfl

/-- Full characterisation of the loop for `0 ≤ chunk_overlap < chunk_size`:
starting at window index `j`, the loop appends the windows
`j, j + 1, ...`, each of width `chunk_size` taken at starts advancing by
`chunk_size - chunk_overlap`, until the start passes the end of the text. -/
lemma chunkLoop_spec (text : List Char) (size overlap : Int)
    (h0 : 0 ≤ overlap) (h1 : overlap < size) :
    ∀ (fuel j : Nat) (acc : List (List Char)),
      (text.length : Int) - ((j * (size - overlap).toNat : Nat) : Int) ≤ fuel →
      ∃ m, chunkLoop text size overlap (fuel + 1)
            ((j * (size - overlap).toNat : Nat) : Int) acc
          = some (acc ++ (List.range' j m).map
              (fun i => (text.drop (i * (size - overlap).toNat)).take size.toNat))
        ∧ text.length ≤ (j + m) * (size - overlap).toNat
        ∧ ∀ i, j ≤ i → i < j + m → i * (size - overlap).toNat < text.length := by
  have hstep : (((size - overlap).toNat : Nat) : Int) = size - overlap :=
    Int.toNat_of_nonneg (by omega)
  have hsize : ((size.toNat : Nat) : Int) = size := Int.toNat_of_nonneg (by omega)
  have hstep1 : 1 ≤ (size - overlap).toNat := by omega
  intro fuel
  induction fuel with
  | zero =>
    intro j acc hle
    have hge : ¬ (((j * (size - overlap).toNat : Nat) : Int) < (text.length : Int)) := by
      omega
    refine ⟨0, ?_, ?_, ?_⟩
    · rw [chunkLoop_succ, if_neg hge]; simp
    · simp only [Nat.add_zero]; omega
    · intro i hji hlt; omega
  | succ n ih =>
    intro j acc hle
    by_cases hlt : ((j * (size - overlap).toNat : Nat) : Int) < (text.length : Int)
    · have hstart : ((j * (size - overlap).toNat : Nat) : Int) + size - overlap
          = (((j + 1) * (size - overlap).toNat : Nat) : Int) := by
        push_cast [Nat.succ_mul]
        omega
      have hchunk : pySlice text ((j * (size - overlap).toNat : Nat) : Int)
            (((j * (size - overlap).toNat : Nat) : Int) + size)
          = (text.drop (j * (size - overlap).toNat)).take size.toNat := by
        have := pySlice_natCast text (j * (size - overlap).toNat) size.toNat
        rwa [hsize] at this
      have hfuel : (text.length : Int) - (((j + 1) * (size - overlap).toNat : Nat) : Int)
          ≤ n := by
        have : (j + 1) * (size - overlap).toNat
            = j * (size - overlap).toNat + (size - overlap).toNat := Nat.succ_mul _ _
        rw [this]
        push_cast
        omega
      obtain ⟨m, hm, hcov, hall⟩ := ih (j + 1)
        (acc ++ [(text.drop (j * (size - overlap).toNat)).take size.toNat]) hfuel
      refine ⟨m + 1, ?_, ?_, ?_⟩
      · rw [chunkLoop_succ, if_pos hlt, hchunk, hstart, hm, List.range'_succ]
        simp
      · have hj : j + (m + 1) = (j + 1) + m := by omega
        rw [hj]; exact hcov
      · intro i hji hiu
        rcases Nat.eq_or_lt_of_le hji with rfl | hji2
        · omega
        · exact hall i (by omega) (by omega)
    · refine ⟨0, ?_, ?_, ?_⟩
      · rw [chunkLoop_succ, if_neg hlt]; simp
      · simp only [Nat.add_zero]; omega
      · intro i hji hiu; omega

/-- C7: for `chunk_size > chunk_overlap ≥ 0`, `_chunk_text` produces the
windows of width `chunk_size` whose starts advance by
`chunk_size - chunk_overlap` each step, covering the whole text and
including the final partial window; in particular for
`chunk_size = 512`, `chunk_overlap = 50` and a text of length `1000` it
yields exactly the windows `[0,512)`, `[462,974)`, `[924,1000)`. -/
theorem c7_chunk_windows (text : List Char) (size overlap : Int)
    (h0 : 0 ≤ overlap) (h1 : overlap < size) :
    (∃ cs, chunkTextFuel text size overlap (text.length + 1) = some cs ∧
        cs = (List.range cs.length).map
          (fun i => (text.drop (i * (size - overlap).toNat)).take size.toNat) ∧
        text.length ≤ cs.length * (size - overlap).toNat ∧
        ∀ i < cs.length, i * (size - overlap).toNat < text.length) ∧
    (text.length = 1000 → size = 512 → overlap = 50 →
      chunkTextFuel text size overlap (text.length + 1) =
        some [text.take 512, (text.drop 462).take 512, (text.drop 924).take 512] ∧
      (text.take 512).length = 512 ∧ ((text.drop 462).take 512).length = 512 ∧
      ((text.drop 924).take 512).length = 76) := by
  have h := chunkLoop_spec text size overlap h0 h1 text.length 0 []
    (by simp only [Nat.zero_mul, Nat.cast_zero]; omega)
  simp only [Nat.zero_mul, Nat.cast_zero, List.nil_append, Nat.zero_add] at h
  obtain ⟨m, hm, hcov, hall⟩ := h
  have hmain : ∃ cs, chunkTextFuel text size overlap (text.length + 1) = some cs ∧
      cs = (List.range cs.length).map
        (fun i => (text.drop (i * (size - overlap).toNat)).take size.toNat) ∧
      text.length ≤ cs.length * (size - overlap).toNat ∧
      ∀ i < cs.length, i * (size - overlap).toNat < text.length := by
    refine ⟨(List.range' 0 m).map
      (fun i => (text.drop (i * (size - overlap).toNat)).take size.toNat), hm, ?_, ?_, ?_⟩
    · simp [List.range_eq_range']
    · simpa using hcov
    · intro i hi
      simp only [List.length_map, List.length_range'] at hi
      exact hall i (Nat.zero_le _) (by omega)
  refine ⟨hmain, ?_⟩
  intro hlen hs ho
  subst hs ho
  obtain ⟨cs, hcs, hcseq, hcov2, hall2⟩ := hmain
  have hstep462 : ((512 : Int) - 50).toNat = 462 := by decide
  have hsize512 : ((512 : Int)).toNat = 512 := by decide
  rw [hstep462] at hcseq hcov2 hall2
  rw [hsize512] at hcseq
  rw [hlen] at hcov2 hall2
  have hL : cs.length = 3 := by
    rcases Nat.lt_or_ge cs.length 3 with hlt | hge
    · exfalso; omega
    · rcases Nat.lt_or_ge cs.length 4 with hlt4 | hge4
      · omega
      · exfalso
        have := hall2 3 (by omega)
        omega
  rw [hL] at hcseq
  have hrange : List.range 3 = [0, 1, 2] := by decide
  rw [hrange] at hcseq
  simp only [List.map_cons, List.map_nil, Nat.zero_mul, Nat.one_mul, List.drop_zero] at hcseq
  norm_num at hcseq
  refine ⟨by rw [hcs, hcseq], ?_, ?_, ?_⟩ <;>
    simp [List.length_take, List.length_drop, hlen]

/-- Witness for `c7_chunk_windows` at a text of length 10 with
`chunk_size = 4`, `chunk_overlap = 1`. -/
theorem c7_chunk_windows_witness :
    (0 : Int) ≤ 1 ∧ (1 : Int) < 4 ∧
    ((∃ cs, chunkTextFuel (List.replicate 10 'a') 4 1
          ((List.replicate 10 'a').length + 1) = some cs ∧
        cs = (List.range cs.length).map
          (fun i => ((List.replicate 10 'a').drop
            (i * ((4 : Int) - 1).toNat)).take (4 : Int).toNat) ∧
        (List.replicate 10 'a').length ≤ cs.length * ((4 : Int) - 1).toNat ∧
        ∀ i < cs.length,
          i * ((4 : Int) - 1).toNat < (List.replicate 10 'a').length) ∧
      ((List.replicate 10 'a').length = 1000 → (4 : Int) = 512 → (1 : Int) = 50 →
        chunkTextFuel (List.replicate 10 'a') 4 1
            ((List.replicate 10 'a').length + 1) =
          some [(List.replicate 10 'a').take 512,
            ((List.replicate 10 'a').drop 462).take 512,
            ((List.replicate 10 'a').drop 924).take 512] ∧
        ((List.replicate 10 'a').take 512).length = 512 ∧
        (((List.replicate 10 'a').drop 462).take 512).length = 512 ∧
        (((List.replicate 10 'a').drop 924).take 512).length = 76)) :=
  ⟨by decide, by decide,
    c7_chunk_windows (List.replicate 10 'a') 4 1 (by decide) (by decide)⟩

/-- C10: for every non-empty text, the `_chunk_text` loop terminates
(for some fuel) exactly when `chunk_overlap < chunk_size`; when
`chunk_overlap ≥ chunk_size` the start never advances past its previous
value and the loop never returns. -/
theorem c10_chunk_termination (text : List Char) (hne : text ≠ [])
    (size overlap : Int) :
    (∃ fuel, (chunkTextFuel text size overlap fuel).isSome) ↔ overlap < size := by
  have hlen : 0 < text.length := List.length_pos.mpr hne
  constructor
  · rintro ⟨fuel, hf⟩
    by_contra hge
    push_neg at hge
    have hnone := chunkLoop_none_of_le text size overlap hge fuel 0 [] (by omega)
    simp only [chunkTextFuel, hnone, Option.isSome_none] at hf
    exact Bool.false_ne_true hf
  · intro h
    exact ⟨text.length + 1,
      chunkLoop_isSome_of_lt text size overlap h text.length 0 [] (by omega)⟩

/-- Witness for `c10_chunk_termination` at the text `"a"` with
`chunk_size = 1`, `chunk_overlap = 0`. -/
theorem c10_chunk_termination_witness :
    (['a'] ≠ ([] : List Char)) ∧
    ((∃ fuel, (chunkTextFuel ['a'] 1 0 fuel).isSome) ↔ (0 : Int) < 1) :=
  ⟨by decide, c10_chunk_termination ['a'] (by decide) 1 0⟩

/-! ### Facts about the run body -/

/-- The registry flag after a call of `process_workspace` is `true`
exactly when the coroutine never returned (the `finally` branch always
runs otherwise). -/
lemma processWorkspace_flag (env : StageEnv) (workspace_id : String) (st : SysState) :
    (processWorkspace env workspace_id st).2.isProcessing workspace_id
      = ((processWorkspace env workspace_id st).1 == RunResult.hang) := by
  unfold processWorkspace
  cases hgw : getWorkspaceById st.db workspace_id with
  | none => simp [SysState.after]
  | some w =>
    cases hemp : (pendingDocs st.db workspace_id).isEmpty with
    | true => simp [hemp, SysState.after]
    | false =>
      cases hrl : runLoop env w (pendingDocs st.db workspace_id).length
          (pendingDocs st.db workspace_id) 0 st.db with
      | inl dbh => simp [hemp, hrl, SysState.after]
      | inr p => obtain ⟨db2, pf⟩ := p; simp [hemp, hrl, SysState.after]

/-- The two final states differ only in the source of the untouched
fields, so they are equal whenever those agree away from the id. -/
lemma after_congr (st st2 : SysState) (workspace_id : String) (db : DB) (b : Bool)
    (htasks : st2.tasks = st.tasks)
    (hother : ∀ x, x ≠ workspace_id → st2.isProcessing x = st.isProcessing x) :
    st2.after workspace_id db b = st.after workspace_id db b := by
  cases st with
  | mk db0 ip0 t0 =>
    cases st2 with
    | mk db1 ip1 t1 =>
      simp only [SysState.after, SysState.mk.injEq]
      refine ⟨trivial, ?_, by simpa using htasks⟩
      funext x
      by_cases hx : x = workspace_id
      · simp [hx]
      · simpa [hx] using hother x hx

/-- `process_workspace` never reads the registry flag: its result depends
only on the database (and the task list and off-id flags pass through). -/
lemma processWorkspace_ignores_flag (env : StageEnv) (workspace_id : String)
    (st st2 : SysState) (hdb : st2.db = st.db) (htasks : st2.tasks = st.tasks)
    (hother : ∀ x, x ≠ workspace_id → st2.isProcessing x = st.isProcessing x) :
    processWorkspace env workspace_id st2 = processWorkspace env workspace_id st := by
  unfold processWorkspace
  rw [hdb]
  cases hgw : getWorkspaceById st.db workspace_id with
  | none => simp [after_congr st st2 workspace_id _ _ htasks hother]
  | some w =>
    cases hemp : (pendingDocs st.db workspace_id).isEmpty with
    | true => simp [hemp, after_congr st st2 workspace_id _ _ htasks hother]
    | false =>
      cases hrl : runLoop env w (pendingDocs st.db workspace_id).length
          (pendingDocs st.db workspace_id) 0 st.db with
      | inl dbh => simp [hemp, hrl, after_congr st st2 workspace_id _ _ htasks hother]
      | inr p =>
        obtain ⟨db2, pf⟩ := p
        simp [hemp, hrl, after_congr st st2 workspace_id _ _ htasks hother]

/-- C9: whenever `process_workspace` ends (success, partial failure or
fatal failure, workspace-not-found included), the registry flag for the
workspace id is `false`, so `is_workspace_processing` reports `false`. -/
theorem c9_registry_cleared (env : StageEnv) (workspace_id : String) (st : SysState)
    (h : (processWorkspace env workspace_id st).1 ≠ RunResult.hang) :
    isWorkspaceProcessing (processWorkspace env workspace_id st).2 workspace_id
      = false := by
  rw [isWorkspaceProcessing, processWorkspace_flag]
  rcases hr : (processWorkspace env workspace_id st).1 with _ | m | _
  · simp [hr]
  · simp [hr]
  · exact absurd hr h

/-- Witness for `c9_registry_cleared`: the not-found run ends (raising),
and the flag is clear afterwards. -/
theorem c9_registry_cleared_witness :
    (processWorkspace envTriv "w1" stEmpty).1 ≠ RunResult.hang ∧
    isWorkspaceProcessing (processWorkspace envTriv "w1" stEmpty).2 "w1" = false :=
  ⟨by decide, c9_registry_cleared envTriv "w1" stEmpty (by decide)⟩

/-- C2 (failing input): for a workspace id absent from the database the
`except` branch itself dereferences `None` (`workspace.status`), so
`process_workspace` terminates with an unhandled `AttributeError`
instead of resolving silently. -/
theorem c2_not_found_unhandled :
    (processWorkspace envTriv "w1" stEmpty).1 =
      RunResult.raised "AttributeError: NoneType object has no attribute status" := rfl

/-- C3 (counterexample): in the workspace-not-found case the run does
persist a `ProcessingLog` entry (step `error`) for the requested id,
contrary to the claim that none is written. -/
theorem c3_error_log_written :
    getWorkspaceById stEmpty.db "w1" = none ∧
    (processWorkspace envTriv "w1" stEmpty).2.db.logs =
      [logErrorEntry "w1" "Workspace not found"] := ⟨rfl, rfl⟩

/-- C3 (amended): when `get_workspace_by_id` returns nothing, the run
aborts after appending exactly one error log entry for that id with
step `error` and message `Workspace not found`. -/
theorem c3_not_found_logs_error (env : StageEnv) (workspace_id : String)
    (st : SysState) (h : getWorkspaceById st.db workspace_id = none) :
    (processWorkspace env workspace_id st).2.db.logs =
      st.db.logs ++ [logErrorEntry workspace_id "Workspace not found"] := by
  simp [processWorkspace, h, SysState.after, addLog]

/-- Witness for `c3_not_found_logs_error`. -/
theorem c3_not_found_logs_error_witness :
    getWorkspaceById stEmpty.db "w1" = none ∧
    (processWorkspace envTriv "w1" stEmpty).2.db.logs =
      stEmpty.db.logs ++ [logErrorEntry "w1" "Workspace not found"] :=
  ⟨rfl, c3_not_found_logs_error envTriv "w1" stEmpty rfl⟩

/-- C1 (counterexample): with the registry flag already set for `w`
(a run is active) and one pending document, a second
`start_document_processing` still schedules a task, and the scheduled
`process_workspace` call is not rejected or ignored: it runs to
completion, appending its five log rows — two active runs, not one. -/
theorem c1_second_trigger_not_rejected :
    isWorkspaceProcessing stActive "w" = true ∧
    (startDocumentProcessing "w" stActive).tasks = ["w", "w"] ∧
    (processWorkspace envTriv "w" stActive).1 = RunResult.ok ∧
    (processWorkspace envTriv "w" stActive).2.db.logs.length = 5 := by
  refine ⟨rfl, rfl, by decide, by decide⟩

/-- C1 (amended): `start_document_processing` schedules a run
unconditionally, and `process_workspace` never consults the registry
flag before processing — its behaviour is identical whatever the flag's
prior value, so a second trigger while a run is active starts a second
run; the registry only records state for `is_workspace_processing`. -/
theorem c1_registry_never_rejects (env : StageEnv) (workspace_id : String)
    (st : SysState) (b : Bool) :
    (startDocumentProcessing workspace_id st).tasks = st.tasks ++ [workspace_id] ∧
    processWorkspace env workspace_id (setFlag st workspace_id b) =
      processWorkspace env workspace_id st := by
  refine ⟨rfl, ?_⟩
  apply processWorkspace_ignores_flag
  · rfl
  · rfl
  · intro x hx
    simp [setFlag, hx]

/-! ### Facts about the per-document loop -/

/-- One loop iteration, expressed through the document's stage outcome:
the log rows written, the row update applied, and the counter change. -/
lemma processDocument_eq (env : StageEnv) (w : RAGWorkspace) (doc : RAGDocument)
    (total_files processed_files : Nat) (db : DB) :
    processDocument env w doc total_files processed_files db =
      match docRun env w doc with
      | .hang => .inl ⟨db.workspaces, db.documents,
          db.logs ++ (docLogs w.id doc.filename total_files processed_files).take 2⟩
      | .fail m => .inr (⟨db.workspaces, setDocument db.documents doc.id (markError m),
          db.logs ++ (docLogs w.id doc.filename total_files processed_files).take
            (docLogCount env w doc)⟩, processed_files)
      | .ok n => .inr (⟨db.workspaces, setDocument db.documents doc.id (markProcessed n),
          db.logs ++ docLogs w.id doc.filename total_files processed_files⟩,
          processed_files + 1) := by
  unfold processDocument docRun docLogCount
  cases hext : env.extractText doc with
  | error m => simp [hext, docLogs, addLog, List.take]
  | ok text =>
    cases hch : chunkTextFuel text w.chunk_size w.chunk_overlap (text.length + 1) with
    | none => simp [hext, hch, docLogs, addLog, List.take]
    | some chunks =>
      cases hemb : env.generateEmbeddings chunks w.embedding_model with
      | error m => simp [hext, hch, hemb, docLogs, addLog, List.take]
      | ok embeddings =>
        cases hidx : env.indexEmbeddings embeddings w.vector_store doc.id with
        | error m => simp [hext, hch, hemb, hidx, docLogs, addLog, List.take]
        | ok u => simp [hext, hch, hemb, hidx, docLogs, addLog]

/-- When every pending document succeeds, the loop returns, increments
the counter once per document, touches no workspace row, applies
`markProcessed` to each document row, and appends exactly the four
`in_progress` rows per document with the counter values `pf, pf+1, ...`. -/
lemma runLoop_allOk (env : StageEnv) (w : RAGWorkspace) (total : Nat) :
    ∀ (ds : List RAGDocument) (pf : Nat) (db : DB),
      (∀ d ∈ ds, ∃ n, docRun env w d = .ok n) →
      ∃ db2, runLoop env w total ds pf db = .inr (db2, pf + ds.length) ∧
        db2.workspaces = db.workspaces ∧
        db2.documents = updatedDocs env w ds db.documents ∧
        db2.logs = db.logs ++
          ((ds.enumFrom pf).map (fun p => docLogs w.id p.2.filename total p.1)).flatten := by
  intro ds
  induction ds with
  | nil =>
    intro pf db _
    exact ⟨db, by simp [runLoop], rfl, by simp [updatedDocs], by simp⟩
  | cons d rest ih =>
    intro pf db hok
    obtain ⟨n, hn⟩ := hok d (by simp)
    have hstep := processDocument_eq env w d total pf db
    rw [hn] at hstep
    obtain ⟨db2, hrun, hws, hdocs, hlogs⟩ := ih (pf + 1)
      ⟨db.workspaces, setDocument db.documents d.id (markProcessed n),
        db.logs ++ docLogs w.id d.filename total pf⟩
      (fun d2 hd2 => hok d2 (by simp [hd2]))
    have harith : pf + 1 + rest.length = pf + (rest.length + 1) := by omega
    refine ⟨db2, ?_, ?_, ?_, ?_⟩
    · simp only [runLoop, hstep, List.length_cons]
      rw [hrun, harith]
    · exact hws
    · rw [hdocs]
      simp [updatedDocs, List.foldl_cons, hn, resultUpdate]
    · rw [hlogs]
      simp [List.enumFrom_cons, List.append_assoc]

/-- When no pending document diverges, the loop returns, touches no
workspace row, applies each document's outcome to its row, and only
appends log rows. -/
lemma runLoop_noHang (env : StageEnv) (w : RAGWorkspace) (total : Nat) :
    ∀ (ds : List RAGDocument) (pf : Nat) (db : DB),
      (∀ d ∈ ds, docRun env w d ≠ .hang) →
      ∃ db2 pf2, runLoop env w total ds pf db = .inr (db2, pf2) ∧
        db2.workspaces = db.workspaces ∧
        db2.documents = updatedDocs env w ds db.documents ∧
        ∃ ls, db2.logs = db.logs ++ ls := by
  intro ds
  induction ds with
  | nil =>
    intro pf db _
    exact ⟨db, pf, by simp [runLoop], rfl, by simp [updatedDocs], [], by simp⟩
  | cons d rest ih =>
    intro pf db hok
    have hstep := processDocument_eq env w d total pf db
    cases hdr : docRun env w d with
    | hang => exact absurd hdr (hok d (by simp))
    | fail m =>
      rw [hdr] at hstep
      obtain ⟨db2, pf2, hrun, hws, hdocs, ls, hlogs⟩ := ih pf
        ⟨db.workspaces, setDocument db.documents d.id (markError m),
          db.logs ++ (docLogs w.id d.filename total pf).take (docLogCount env w d)⟩
        (fun d2 hd2 => hok d2 (by simp [hd2]))
      refine ⟨db2, pf2, ?_, hws, ?_, ?_⟩
      · simp only [runLoop, hstep]
        exact hrun
      · rw [hdocs]
        simp [updatedDocs, List.foldl_cons, hdr, resultUpdate]
      · exact ⟨(docLogs w.id d.filename total pf).take (docLogCount env w d) ++ ls,
          by rw [hlogs]; simp [List.append_assoc]⟩
    | ok n =>
      rw [hdr] at hstep
      obtain ⟨db2, pf2, hrun, hws, hdocs, ls, hlogs⟩ := ih (pf + 1)
        ⟨db.workspaces, setDocument db.documents d.id (markProcessed n),
          db.logs ++ docLogs w.id d.filename total pf⟩
        (fun d2 hd2 => hok d2 (by simp [hd2]))
      refine ⟨db2, pf2, ?_, hws, ?_, ?_⟩
      · simp only [runLoop, hstep]
        exact hrun
      · rw [hdocs]
        simp [updatedDocs, List.foldl_cons, hdr, resultUpdate]
      · exact ⟨docLogs w.id d.filename total pf ++ ls,
          by rw [hlogs]; simp [List.append_assoc]⟩

/-- Four rows per document. -/
lemma flatten_docLogs_length (wid : String) (total : Nat) :
    ∀ (ds : List RAGDocument) (pf : Nat),
      (((ds.enumFrom pf).map (fun p => docLogs wid p.2.filename total p.1)).flatten).length
        = 4 * ds.length := by
  intro ds
  induction ds with
  | nil => intro pf; rfl
  | cons d rest ih =>
    intro pf
    simp only [List.enumFrom_cons, List.map_cons, List.flatten_cons, List.length_append,
      List.length_cons, ih (pf + 1)]
    simp [docLogs]
    omega

/-- The step/file pairs of the loop's rows, document by document in
order. -/
lemma flatten_docLogs_steps (wid : String) (total : Nat) :
    ∀ (ds : List RAGDocument) (pf : Nat),
      (((ds.enumFrom pf).map (fun p => docLogs wid p.2.filename total p.1)).flatten).map
          (fun e => (e.step, e.current_file))
        = (ds.map (fun d =>
            [("extracting", some d.filename), ("chunking", some d.filename),
             ("embedding", some d.filename), ("indexing", some d.filename)])).flatten := by
  intro ds
  induction ds with
  | nil => intro pf; rfl
  | cons d rest ih =>
    intro pf
    simp only [List.enumFrom_cons, List.map_cons, List.flatten_cons, List.map_append,
      ih (pf + 1)]
    simp [docLogs, logStepEntry]

/-- `update_workspace_metrics` leaves the log and document tables alone. -/
lemma updateWorkspaceMetrics_logs (db : DB) (workspace_id : String) :
    (updateWorkspaceMetrics db workspace_id).logs = db.logs := by
  rcases hgw : getWorkspaceById db workspace_id with _ | w <;>
    simp [updateWorkspaceMetrics, hgw]

/-- `update_workspace_metrics` leaves the document table alone. -/
lemma updateWorkspaceMetrics_documents (db : DB) (workspace_id : String) :
    (updateWorkspaceMetrics db workspace_id).documents = db.documents := by
  rcases hgw : getWorkspaceById db workspace_id with _ | w <;>
    simp [updateWorkspaceMetrics, hgw]

/-- `_complete_processing` appends exactly the final `completed` row. -/
lemma completeProcessing_logs (workspace_id : String) (db : DB) :
    (completeProcessing workspace_id db).logs
      = db.logs ++ [completedEntry workspace_id] := by
  simp [completeProcessing, addLog, updateWorkspaceMetrics_logs]

/-- `_complete_processing` leaves the document table alone. -/
lemma completeProcessing_documents (workspace_id : String) (db : DB) :
    (completeProcessing workspace_id db).documents = db.documents := by
  simp [completeProcessing, addLog, updateWorkspaceMetrics_documents]

/-- C4: when every pending document's four stages succeed, the run ends
normally and appends exactly `N * 4 + 1` log rows: the steps
`extracting, chunking, embedding, indexing` for each document in
retrieval order, then one final row with step `completed` and
progress `100`. -/
theorem c4_log_shape (env : StageEnv) (workspace_id : String) (st : SysState)
    (w : RAGWorkspace)
    (hw : getWorkspaceById st.db workspace_id = some w)
    (hne : pendingDocs st.db workspace_id ≠ [])
    (hok : ∀ d ∈ pendingDocs st.db workspace_id, ∃ n, docRun env w d = .ok n) :
    (processWorkspace env workspace_id st).1 = RunResult.ok ∧
    ∃ ls, (processWorkspace env workspace_id st).2.db.logs = st.db.logs ++ ls ∧
      ls.length = 4 * (pendingDocs st.db workspace_id).length + 1 ∧
      ls.map (fun e => (e.step, e.current_file)) =
        ((pendingDocs st.db workspace_id).map (fun d =>
          [("extracting", some d.filename), ("chunking", some d.filename),
           ("embedding", some d.filename), ("indexing", some d.filename)])).flatten
          ++ [("completed", (none : Option String))] ∧
      ∃ ls0 efin, ls = ls0 ++ [efin] ∧ efin.step = "completed" ∧
        efin.progress_percent = 100 := by
  obtain ⟨db2, hrun, hws, hdocs, hlogs⟩ :=
    runLoop_allOk env w (pendingDocs st.db workspace_id).length
      (pendingDocs st.db workspace_id) 0 st.db hok
  have hemp : (pendingDocs st.db workspace_id).isEmpty = false := by
    simp [List.isEmpty_iff, hne]
  have hproc : processWorkspace env workspace_id st =
      (.ok, st.after workspace_id (completeProcessing workspace_id db2) false) := by
    simp [processWorkspace, hw, hemp, hrun]
  refine ⟨by rw [hproc], ?_⟩
  refine ⟨(((pendingDocs st.db workspace_id).enumFrom 0).map
      (fun p => docLogs w.id p.2.filename (pendingDocs st.db workspace_id).length p.1)).flatten
      ++ [completedEntry workspace_id], ?_, ?_, ?_, ?_⟩
  · rw [hproc]
    show (completeProcessing workspace_id db2).logs = _
    rw [completeProcessing_logs, hlogs, List.append_assoc]
  · rw [List.length_append, flatten_docLogs_length]
    rfl
  · rw [List.map_append, flatten_docLogs_steps]
    rfl
  · exact ⟨_, completedEntry workspace_id, rfl, rfl, rfl⟩

/-- Witness for `c4_log_shape`: one pending document, every stage
succeeding. -/
theorem c4_log_shape_witness :
    getWorkspaceById stActive.db "w" = some wsA ∧
    pendingDocs stActive.db "w" ≠ [] ∧
    ((processWorkspace envTriv "w" stActive).1 = RunResult.ok ∧
    ∃ ls, (processWorkspace envTriv "w" stActive).2.db.logs = stActive.db.logs ++ ls ∧
      ls.length = 4 * (pendingDocs stActive.db "w").length + 1 ∧
      ls.map (fun e => (e.step, e.current_file)) =
        ((pendingDocs stActive.db "w").map (fun d =>
          [("extracting", some d.filename), ("chunking", some d.filename),
           ("embedding", some d.filename), ("indexing", some d.filename)])).flatten
          ++ [("completed", (none : Option String))] ∧
      ∃ ls0 efin, ls = ls0 ++ [efin] ∧ efin.step = "completed" ∧
        efin.progress_percent = 100) :=
  ⟨rfl, by decide,
    c4_log_shape envTriv "w" stActive wsA rfl (by decide) (fun _ _ => ⟨0, rfl⟩)⟩

/-! ### Facts about the document-table updates -/

/-- Both row updates keep the primary key. -/
lemma resultUpdate_id (r : DocResult) (d : RAGDocument) :
    (resultUpdate r d).id = d.id := by
  cases r <;> rfl

/-- `updatedDocs` over a cons. -/
lemma updatedDocs_cons (env : StageEnv) (w : RAGWorkspace) (a : RAGDocument)
    (rest : List RAGDocument) (docs : List RAGDocument) :
    updatedDocs env w (a :: rest) docs
      = updatedDocs env w rest
          (setDocument docs a.id (resultUpdate (docRun env w a))) := rfl

/-- Updating a row and then looking it up sees the update (first-match
on both sides). -/
lemma find?_setDocument_self (ds : List RAGDocument) (did : String)
    (f : RAGDocument → RAGDocument) (hid : ∀ x, (f x).id = x.id) :
    (setDocument ds did f).find? (fun x => x.id == did)
      = (ds.find? (fun x => x.id == did)).map f := by
  induction ds with
  | nil => rfl
  | cons a rest ih =>
    by_cases ha : a.id = did
    · simp [setDocument, ha, List.find?_cons, hid]
    · simp [setDocument, ha, List.find?_cons, ih]

/-- Updating one row does not change lookups of other keys. -/
lemma find?_setDocument_other (ds : List RAGDocument) (did j : String)
    (f : RAGDocument → RAGDocument) (hid : ∀ x, (f x).id = x.id)
    (hne : j ≠ did) :
    (setDocument ds did f).find? (fun x => x.id == j)
      = ds.find? (fun x => x.id == j) := by
  induction ds with
  | nil => rfl
  | cons a rest ih =>
    by_cases ha : a.id = did
    · have h1 : ((f a).id == j) = false := by
        simp [hid, ha, Ne.symm hne]
      have h2 : (did == j) = false := by
        simp [Ne.symm hne]
      simp [setDocument, ha, List.find?_cons, h1, h2]
    · simp [setDocument, ha, List.find?_cons, ih]

/-- Keys outside `ds` are untouched by the whole loop. -/
lemma find?_updatedDocs_notin (env : StageEnv) (w : RAGWorkspace) :
    ∀ (ds : List RAGDocument) (docs : List RAGDocument) (j : String),
      j ∉ ds.map (fun x => x.id) →
      (updatedDocs env w ds docs).find? (fun x => x.id == j)
        = docs.find? (fun x => x.id == j) := by
  intro ds
  induction ds with
  | nil => intro docs j _; rfl
  | cons a rest ih =>
    intro docs j hj
    simp only [List.map_cons, List.mem_cons, not_or] at hj
    rw [updatedDocs_cons, ih _ j hj.2,
      find?_setDocument_other _ _ _ _ (resultUpdate_id _) hj.1]

/-- With distinct keys, the loop rewrites each listed document's row by
its own outcome. -/
lemma find?_updatedDocs (env : StageEnv) (w : RAGWorkspace) :
    ∀ (ds : List RAGDocument) (docs : List RAGDocument) (d : RAGDocument),
      d ∈ ds → (ds.map (fun x => x.id)).Nodup →
      (updatedDocs env w ds docs).find? (fun x => x.id == d.id)
        = (docs.find? (fun x => x.id == d.id)).map
            (resultUpdate (docRun env w d)) := by
  intro ds
  induction ds with
  | nil => intro docs d hd; exact absurd hd (by simp)
  | cons a rest ih =>
    intro docs d hd hnd
    simp only [List.map_cons, List.nodup_cons] at hnd
    rw [updatedDocs_cons]
    rcases List.mem_cons.mp hd with rfl | hd2
    · rw [find?_updatedDocs_notin env w rest _ d.id hnd.1,
        find?_setDocument_self _ _ _ (resultUpdate_id _)]
    · have hne : d.id ≠ a.id := by
        intro h
        exact hnd.1 (h ▸ List.mem_map_of_mem (fun x => x.id) hd2)
      rw [ih _ d hd2 hnd.2,
        find?_setDocument_other _ _ _ _ (resultUpdate_id _) hne]

/-- With distinct keys, looking a member up by its own key finds it. -/
lemma find?_eq_self_of_mem_nodup :
    ∀ (l : List RAGDocument), (l.map (fun x => x.id)).Nodup →
      ∀ d ∈ l, l.find? (fun x => x.id == d.id) = some d := by
  intro l
  induction l with
  | nil => intro _ d hd; exact absurd hd (by simp)
  | cons a rest ih =>
    intro hnd d hd
    simp only [List.map_cons, List.nodup_cons] at hnd
    rcases List.mem_cons.mp hd with rfl | hd2
    · simp [List.find?_cons]
    · have hne : (a.id == d.id) = false := by
        simp only [beq_eq_false_iff_ne, ne_eq]
        intro h
        exact hnd.1 (h ▸ List.mem_map_of_mem (fun x => x.id) hd2)
      simp [List.find?_cons, hne, ih hnd.2 d hd2]

/-- Two members of a duplicate-free table with the same key are the same
row. -/
lemma eq_of_mem_id :
    ∀ (l : List RAGDocument), (l.map (fun x => x.id)).Nodup →
      ∀ a ∈ l, ∀ b ∈ l, a.id = b.id → a = b := by
  intro l
  induction l with
  | nil => intro _ a ha; exact absurd ha (by simp)
  | cons c rest ih =>
    intro hnd a ha b hb hab
    simp only [List.map_cons, List.nodup_cons] at hnd
    rcases List.mem_cons.mp ha with rfl | ha2
    · rcases List.mem_cons.mp hb with rfl | hb2
      · rfl
      · exact absurd (hab ▸ List.mem_map_of_mem (fun x => x.id) hb2) hnd.1
    · rcases List.mem_cons.mp hb with rfl | hb2
      · exact absurd (hab ▸ List.mem_map_of_mem (fun x => x.id) ha2) hnd.1
      · exact ih hnd.2 a ha2 b hb2 hab

/-- The pending-document query inherits key distinctness from the
table. -/
lemma pendingDocs_nodup (db : DB) (workspace_id : String)
    (h : (db.documents.map (fun x => x.id)).Nodup) :
    ((pendingDocs db workspace_id).map (fun x => x.id)).Nodup :=
  h.sublist (List.Sublist.map _ (List.filter_sublist _))

/-! ### Facts about the workspace-table updates -/

/-- Updating a workspace row and then looking it up sees the update. -/
lemma find?_setWorkspace_self (ws : List RAGWorkspace) (wid : String)
    (f : RAGWorkspace → RAGWorkspace) (hid : ∀ x, (f x).id = x.id) :
    (setWorkspace ws wid f).find? (fun x => x.id == wid)
      = (ws.find? (fun x => x.id == wid)).map f := by
  induction ws with
  | nil => rfl
  | cons a rest ih =>
    by_cases ha : a.id = wid
    · simp [setWorkspace, ha, List.find?_cons, hid]
    · simp [setWorkspace, ha, List.find?_cons, ih]

/-- Applying the same key-preserving idempotent update twice is the same
as applying it once. -/
lemma setWorkspace_idem (ws : List RAGWorkspace) (wid : String)
    (f : RAGWorkspace → RAGWorkspace) (hid : ∀ x, (f x).id = x.id)
    (hff : ∀ x, f (f x) = f x) :
    setWorkspace (setWorkspace ws wid f) wid f = setWorkspace ws wid f := by
  induction ws with
  | nil => rfl
  | cons a rest ih =>
    by_cases ha : a.id = wid
    · simp [setWorkspace, ha, hid, hff]
    · simp [setWorkspace, ha, ih]

/-- Appending a log row does not change workspace lookups. -/
lemma getWorkspaceById_addLog (db : DB) (e : RAGProcessingLog)
    (workspace_id : String) :
    getWorkspaceById (addLog db e) workspace_id
      = getWorkspaceById db workspace_id := rfl

/-- A key- and status-preserving update keeps a `ready` row readable. -/
lemma exists_status_after_setWorkspace (X : List RAGWorkspace) (wid : String)
    (g : RAGWorkspace → RAGWorkspace) (hid : ∀ x, (g x).id = x.id)
    (hstat : ∀ x, (g x).status = x.status) (y : RAGWorkspace)
    (hy : X.find? (fun x => x.id == wid) = some y) (hys : y.status = "ready") :
    ∃ w2, (setWorkspace X wid g).find? (fun x => x.id == wid) = some w2 ∧
      w2.status = "ready" := by
  rw [find?_setWorkspace_self X wid g hid, hy]
  exact ⟨g y, rfl, by rw [hstat, hys]⟩

/-- After `_complete_processing` the workspace row reads `ready`. -/
lemma completeProcessing_status (workspace_id : String) (db : DB)
    (w0 : RAGWorkspace) (h : getWorkspaceById db workspace_id = some w0) :
    ∃ w2, getWorkspaceById (completeProcessing workspace_id db) workspace_id
        = some w2 ∧ w2.status = "ready" := by
  have h1 : getWorkspaceById
      (⟨setWorkspace db.workspaces workspace_id
          (fun x => { x with status := "ready", processing_time_sec := some 60 }),
        db.documents, db.logs⟩ : DB)
      workspace_id
      = some { w0 with status := "ready", processing_time_sec := some 60 } := by
    show (setWorkspace db.workspaces workspace_id _).find? _ = _
    rw [find?_setWorkspace_self db.workspaces workspace_id
      (fun x => { x with status := "ready", processing_time_sec := some 60 })
      (fun x => rfl)]
    rw [show db.workspaces.find? (fun x => x.id == workspace_id) = some w0 from h]
    rfl
  simp only [completeProcessing, getWorkspaceById_addLog, updateWorkspaceMetrics, h1]
  exact exists_status_after_setWorkspace _ workspace_id _ (fun x => rfl)
    (fun x => rfl) _ h1 rfl

/-- C5: when one pending document fails at a stage (message `m`) and the
others succeed, the run still ends normally: the failed row is `error`
with `error_message = m` (non-empty), every other pending row is
`processed` with a chunk count, and the workspace still reads `ready`. -/
theorem c5_per_document_isolation (env : StageEnv) (workspace_id : String)
    (st : SysState) (w : RAGWorkspace) (dFail : RAGDocument) (m : String)
    (hw : getWorkspaceById st.db workspace_id = some w)
    (hnodup : (st.db.documents.map (fun x => x.id)).Nodup)
    (hmem : dFail ∈ pendingDocs st.db workspace_id)
    (hfail : docRun env w dFail = .fail m)
    (hm : m ≠ "")
    (hothers : ∀ d ∈ pendingDocs st.db workspace_id, d.id ≠ dFail.id →
      ∃ n, docRun env w d = .ok n) :
    (processWorkspace env workspace_id st).1 = RunResult.ok ∧
    (∃ dF, findDocById (processWorkspace env workspace_id st).2.db dFail.id
        = some dF ∧ dF.status = "error" ∧ dF.error_message = some m ∧ m ≠ "") ∧
    (∀ d ∈ pendingDocs st.db workspace_id, d.id ≠ dFail.id →
      ∃ d2 n, findDocById (processWorkspace env workspace_id st).2.db d.id
          = some d2 ∧ d2.status = "processed" ∧ d2.chunk_count = some n) ∧
    (∃ w2, getWorkspaceById (processWorkspace env workspace_id st).2.db workspace_id
        = some w2 ∧ w2.status = "ready") := by
  have hpnodup := pendingDocs_nodup st.db workspace_id hnodup
  have hnh : ∀ d ∈ pendingDocs st.db workspace_id, docRun env w d ≠ .hang := by
    intro d hd
    by_cases hdid : d.id = dFail.id
    · have hde : d = dFail := eq_of_mem_id _ hpnodup d hd dFail hmem hdid
      rw [hde, hfail]
      simp
    · obtain ⟨n, hn⟩ := hothers d hd hdid
      rw [hn]
      simp
  obtain ⟨db2, pf2, hrun, hws, hdocs, ls, hlogs⟩ :=
    runLoop_noHang env w (pendingDocs st.db workspace_id).length
      (pendingDocs st.db workspace_id) 0 st.db hnh
  have hemp : (pendingDocs st.db workspace_id).isEmpty = false := by
    simp [List.isEmpty_iff, List.ne_nil_of_mem hmem]
  have hproc : processWorkspace env workspace_id st =
      (.ok, st.after workspace_id (completeProcessing workspace_id db2) false) := by
    simp [processWorkspace, hw, hemp, hrun]
  refine ⟨by rw [hproc], ?_, ?_, ?_⟩
  · refine ⟨markError m dFail, ?_, rfl, rfl, hm⟩
    rw [hproc]
    show (completeProcessing workspace_id db2).documents.find?
      (fun x => x.id == dFail.id) = _
    rw [completeProcessing_documents, hdocs,
      find?_updatedDocs env w _ _ dFail hmem hpnodup,
      find?_eq_self_of_mem_nodup st.db.documents hnodup dFail
        (List.mem_filter.mp hmem).1,
      hfail]
    rfl
  · intro d hd hdne
    obtain ⟨n, hn⟩ := hothers d hd hdne
    refine ⟨markProcessed n d, n, ?_, rfl, rfl⟩
    rw [hproc]
    show (completeProcessing workspace_id db2).documents.find?
      (fun x => x.id == d.id) = _
    rw [completeProcessing_documents, hdocs,
      find?_updatedDocs env w _ _ d hd hpnodup,
      find?_eq_self_of_mem_nodup st.db.documents hnodup d
        (List.mem_filter.mp hd).1,
      hn]
    rfl
  · rw [hproc]
    have hw2 : getWorkspaceById db2 workspace_id = some w := by
      show db2.workspaces.find? _ = _
      rw [hws]
      exact hw
    exact completeProcessing_status workspace_id db2 w hw2

/-- Witness for `c5_per_document_isolation`: two pending documents,
the vector-store call failing for the first only. -/
theorem c5_per_document_isolation_witness :
    getWorkspaceById stTwoDocs.db "w" = some wsA ∧
    docRun envFail1 wsA docA = .fail "vector store unavailable" ∧
    ((processWorkspace envFail1 "w" stTwoDocs).1 = RunResult.ok ∧
    (∃ dF, findDocById (processWorkspace envFail1 "w" stTwoDocs).2.db docA.id
        = some dF ∧ dF.status = "error" ∧
        dF.error_message = some "vector store unavailable" ∧
        "vector store unavailable" ≠ "") ∧
    (∀ d ∈ pendingDocs stTwoDocs.db "w", d.id ≠ docA.id →
      ∃ d2 n, findDocById (processWorkspace envFail1 "w" stTwoDocs).2.db d.id
          = some d2 ∧ d2.status = "processed" ∧ d2.chunk_count = some n) ∧
    (∃ w2, getWorkspaceById (processWorkspace envFail1 "w" stTwoDocs).2.db "w"
        = some w2 ∧ w2.status = "ready")) :=
  ⟨rfl, by decide,
    c5_per_document_isolation envFail1 "w" stTwoDocs wsA docA
      "vector store unavailable" rfl (by decide) (by decide) (by decide)
      (by decide)
      (by
        intro d hd hne
        have hp : pendingDocs stTwoDocs.db "w" = [docA, docB] := rfl
        rw [hp] at hd
        rcases List.mem_cons.mp hd with rfl | hd2
        · exact absurd rfl hne
        · rcases List.mem_cons.mp hd2 with rfl | hd3
          · exact ⟨2, by decide⟩
          · exact absurd hd3 (by simp))⟩

/-- `update_workspace_metrics` is idempotent: the recomputation reads
only the document table, which it never writes. -/
lemma updateWorkspaceMetrics_idem (db : DB) (workspace_id : String) :
    updateWorkspaceMetrics (updateWorkspaceMetrics db workspace_id) workspace_id
      = updateWorkspaceMetrics db workspace_id := by
  rcases hgw : getWorkspaceById db workspace_id with _ | w
  · simp [updateWorkspaceMetrics, hgw]
  · have hfind : db.workspaces.find? (fun x => x.id == workspace_id) = some w := hgw
    have hid : ∀ x : RAGWorkspace,
        (metricsUpdate db.documents workspace_id x).id = x.id := fun x => rfl
    have hD1 : updateWorkspaceMetrics db workspace_id
        = ⟨setWorkspace db.workspaces workspace_id
            (metricsUpdate db.documents workspace_id), db.documents, db.logs⟩ := by
      simp [updateWorkspaceMetrics, hgw]
    rw [hD1]
    have hscrut : getWorkspaceById
        (⟨setWorkspace db.workspaces workspace_id
            (metricsUpdate db.documents workspace_id),
          db.documents, db.logs⟩ : DB) workspace_id
        = some (metricsUpdate db.documents workspace_id w) := by
      show (setWorkspace db.workspaces workspace_id _).find? _ = _
      rw [find?_setWorkspace_self db.workspaces workspace_id
        (metricsUpdate db.documents workspace_id) hid, hfind]
      rfl
    simp only [updateWorkspaceMetrics, hscrut]
    rw [setWorkspace_idem db.workspaces workspace_id _ hid (fun x => rfl)]

/-- C8: `update_workspace_metrics` sets, from the current document rows
of the workspace, `total_documents` to the count of all its documents
(any status), `storage_size_mb` to the sum of their recorded sizes, and
`total_chunks` to the sum of `chunk_count` with a missing count read as
zero; and it is idempotent. -/
theorem c8_metrics_aggregation (db : DB) (workspace_id : String)
    (w : RAGWorkspace) (h : getWorkspaceById db workspace_id = some w) :
    getWorkspaceById (updateWorkspaceMetrics db workspace_id) workspace_id
      = some (metricsUpdate db.documents workspace_id w) ∧
    (metricsUpdate db.documents workspace_id w).total_documents
      = (db.documents.filter (fun d => d.workspace_id == workspace_id)).length ∧
    (metricsUpdate db.documents workspace_id w).storage_size_mb
      = ((db.documents.filter (fun d => d.workspace_id == workspace_id)).map
          (fun d => d.file_size_mb)).sum ∧
    (metricsUpdate db.documents workspace_id w).total_chunks
      = ((db.documents.filter (fun d => d.workspace_id == workspace_id)).map
          (fun d => d.chunk_count.getD 0)).sum ∧
    updateWorkspaceMetrics (updateWorkspaceMetrics db workspace_id) workspace_id
      = updateWorkspaceMetrics db workspace_id := by
  have hfind : db.workspaces.find? (fun x => x.id == workspace_id) = some w := h
  have hid : ∀ x : RAGWorkspace,
      (metricsUpdate db.documents workspace_id x).id = x.id := fun x => rfl
  refine ⟨?_, rfl, rfl, rfl, updateWorkspaceMetrics_idem db workspace_id⟩
  simp only [updateWorkspaceMetrics, h]
  show (setWorkspace db.workspaces workspace_id
    (metricsUpdate db.documents workspace_id)).find? (fun x => x.id == workspace_id) = _
  rw [find?_setWorkspace_self db.workspaces workspace_id
    (metricsUpdate db.documents workspace_id) hid, hfind]
  rfl

/-- Witness for `c8_metrics_aggregation` on a workspace with two
documents. -/
theorem c8_metrics_aggregation_witness :
    getWorkspaceById stTwoDocs.db "w" = some wsA ∧
    (getWorkspaceById (updateWorkspaceMetrics stTwoDocs.db "w") "w"
      = some (metricsUpdate stTwoDocs.db.documents "w" wsA) ∧
    (metricsUpdate stTwoDocs.db.documents "w" wsA).total_documents
      = (stTwoDocs.db.documents.filter (fun d => d.workspace_id == "w")).length ∧
    (metricsUpdate stTwoDocs.db.documents "w" wsA).storage_size_mb
      = ((stTwoDocs.db.documents.filter (fun d => d.workspace_id == "w")).map
          (fun d => d.file_size_mb)).sum ∧
    (metricsUpdate stTwoDocs.db.documents "w" wsA).total_chunks
      = ((stTwoDocs.db.documents.filter (fun d => d.workspace_id == "w")).map
          (fun d => d.chunk_count.getD 0)).sum ∧
    updateWorkspaceMetrics (updateWorkspaceMetrics stTwoDocs.db "w") "w"
      = updateWorkspaceMetrics stTwoDocs.db "w") :=
  ⟨rfl, c8_metrics_aggregation stTwoDocs.db "w" wsA rfl⟩

/-! ### Progress-percentage arithmetic -/

/-- Scaling a ratio with a fixed denominator is monotone. -/
lemma div_mul_hundred_mono (t a b : ℚ) (ht : 0 < t) (hab : a ≤ b) :
    a / t * 100 ≤ b / t * 100 := by
  gcongr

/-- A ratio of at most one scales to at most `100`. -/
lemma div_mul_hundred_le (t a : ℚ) (ht : 0 < t) (ha : a ≤ t) :
    a / t * 100 ≤ 100 := by
  rw [div_mul_eq_mul_div, div_le_iff₀ ht]
  nlinarith

/-- The progress of every `docLogs` row, in order. -/
lemma docLogs_map_progress (workspace_id filename : String)
    (total_files processed_files : Nat) :
    (docLogs workspace_id filename total_files processed_files).map
        (fun e => e.progress_percent)
      = progressQuad total_files processed_files := rfl

/-- The four per-document percentages are in `[0, 100]` while documents
remain. -/
lemma progressQuad_bounds (total pf : Nat) (h : pf + 1 ≤ total) :
    ∀ x ∈ progressQuad total pf, 0 ≤ x ∧ x ≤ 100 := by
  have ht : (0 : ℚ) < total := by
    have : (1 : ℚ) ≤ total := by exact_mod_cast Nat.one_le_iff_ne_zero.mpr (by omega)
    linarith
  have hpf : (pf : ℚ) + 1 ≤ total := by exact_mod_cast h
  intro x hx
  simp only [progressQuad, List.mem_cons, List.not_mem_nil, or_false] at hx
  rcases hx with rfl | rfl | rfl | rfl
  · exact ⟨by positivity, div_mul_hundred_le _ _ ht (by linarith)⟩
  · exact ⟨by positivity, div_mul_hundred_le _ _ ht (by linarith)⟩
  · exact ⟨by positivity, div_mul_hundred_le _ _ ht (by linarith)⟩
  · exact ⟨by positivity, div_mul_hundred_le _ _ ht (by linarith)⟩

/-- Within one document the four percentages increase. -/
lemma progressQuad_sorted (total pf : Nat) (htot : 0 < total) :
    List.Sorted (· ≤ ·) (progressQuad total pf) := by
  have ht : (0 : ℚ) < total := by exact_mod_cast htot
  simp only [progressQuad, List.sorted_cons, List.mem_cons, List.not_mem_nil, or_false,
    List.sorted_singleton]
  refine ⟨?_, ?_, ?_, fun b h => h.elim, List.sorted_nil⟩
  · rintro b (rfl | rfl | rfl) <;>
      · have h0 : (pf : ℚ) / total * 100 = ((pf : ℚ) + 0) / total * 100 := by ring
        rw [h0]
        exact div_mul_hundred_mono _ _ _ ht (by norm_num)
  · rintro b (rfl | rfl) <;> exact div_mul_hundred_mono _ _ _ ht (by norm_num)
  · rintro b rfl
    exact div_mul_hundred_mono _ _ _ ht (by norm_num)

/-- Every percentage of an earlier document is at most every percentage
of a later one. -/
lemma progressQuad_cross (total pf j : Nat) (htot : 0 < total)
    (hpj : pf + 1 ≤ j) :
    ∀ x ∈ progressQuad total pf, ∀ y ∈ progressQuad total j, x ≤ y := by
  have ht : (0 : ℚ) < total := by exact_mod_cast htot
  have hpjq : (pf : ℚ) + 1 ≤ (j : ℚ) := by exact_mod_cast hpj
  intro x hx y hy
  have h1 : x ≤ ((pf : ℚ) + 9/10) / total * 100 := by
    simp only [progressQuad, List.mem_cons, List.not_mem_nil, or_false] at hx
    rcases hx with rfl | rfl | rfl | rfl
    · have h0 : (pf : ℚ) / total * 100 = ((pf : ℚ) + 0) / total * 100 := by ring
      rw [h0]
      exact div_mul_hundred_mono _ _ _ ht (by norm_num)
    · exact div_mul_hundred_mono _ _ _ ht (by norm_num)
    · exact div_mul_hundred_mono _ _ _ ht (by norm_num)
    · exact le_refl _
  have h2 : (j : ℚ) / total * 100 ≤ y := by
    simp only [progressQuad, List.mem_cons, List.not_mem_nil, or_false] at hy
    rcases hy with rfl | rfl | rfl | rfl
    · exact le_refl _
    · exact div_mul_hundred_mono _ _ _ ht (by norm_num)
    · exact div_mul_hundred_mono _ _ _ ht (by norm_num)
    · exact div_mul_hundred_mono _ _ _ ht (by norm_num)
  have h3 : ((pf : ℚ) + 9/10) / total * 100 ≤ (j : ℚ) / total * 100 :=
    div_mul_hundred_mono _ _ _ ht (by linarith)
  linarith

/-- Each loop row's percentage is one of the four for its document. -/
lemma docLogs_mem_progress (workspace_id filename : String) (total pf : Nat)
    (e : RAGProcessingLog) (he : e ∈ docLogs workspace_id filename total pf) :
    e.progress_percent ∈ progressQuad total pf := by
  simp only [docLogs, List.mem_cons, List.not_mem_nil, or_false] at he
  rcases he with rfl | rfl | rfl | rfl <;> simp [progressQuad, logStepEntry]

/-- Whatever the outcomes (divergence included), every row the loop
appends carries a percentage in `[0, 100]`. -/
lemma runLoop_logs_bounded (env : StageEnv) (w : RAGWorkspace) (total : Nat) :
    ∀ (ds : List RAGDocument) (pf : Nat) (db : DB), pf + ds.length ≤ total →
      ∃ ls, (runDB (runLoop env w total ds pf db)).logs = db.logs ++ ls ∧
        ∀ e ∈ ls, 0 ≤ e.progress_percent ∧ e.progress_percent ≤ 100 := by
  intro ds
  induction ds with
  | nil =>
    intro pf db _
    exact ⟨[], by simp [runLoop, runDB], by simp⟩
  | cons d rest ih =>
    intro pf db hle
    simp only [List.length_cons] at hle
    have h1 : pf + 1 ≤ total := by omega
    cases hdr : docRun env w d with
    | hang =>
      refine ⟨(docLogs w.id d.filename total pf).take 2, ?_, ?_⟩
      · simp [runLoop, processDocument_eq, hdr, runDB]
      · intro e he
        exact progressQuad_bounds total pf h1 _
          (docLogs_mem_progress w.id d.filename total pf e (List.mem_of_mem_take he))
    | fail m =>
      obtain ⟨ls, hls, hb⟩ := ih pf
        ⟨db.workspaces, setDocument db.documents d.id (markError m),
          db.logs ++ (docLogs w.id d.filename total pf).take (docLogCount env w d)⟩
        (by omega)
      refine ⟨(docLogs w.id d.filename total pf).take (docLogCount env w d) ++ ls,
        ?_, ?_⟩
      · simp only [runLoop, processDocument_eq, hdr]
        rw [hls]
        simp [List.append_assoc]
      · intro e he
        rcases List.mem_append.mp he with h2 | h2
        · exact progressQuad_bounds total pf h1 _
            (docLogs_mem_progress w.id d.filename total pf e (List.mem_of_mem_take h2))
        · exact hb e h2
    | ok n =>
      obtain ⟨ls, hls, hb⟩ := ih (pf + 1)
        ⟨db.workspaces, setDocument db.documents d.id (markProcessed n),
          db.logs ++ docLogs w.id d.filename total pf⟩
        (by omega)
      refine ⟨docLogs w.id d.filename total pf ++ ls, ?_, ?_⟩
      · simp only [runLoop, processDocument_eq, hdr]
        rw [hls]
        simp [List.append_assoc]
      · intro e he
        rcases List.mem_append.mp he with h2 | h2
        · exact progressQuad_bounds total pf h1 _
            (docLogs_mem_progress w.id d.filename total pf e h2)
        · exact hb e h2

/-- The percentages of an all-success run, grouped per document. -/
lemma flatten_docLogs_progress (wid : String) (total : Nat) :
    ∀ (ds : List RAGDocument) (pf : Nat),
      (((ds.enumFrom pf).map (fun p => docLogs wid p.2.filename total p.1)).flatten).map
          (fun e => e.progress_percent)
        = ((List.range' pf ds.length).map (progressQuad total)).flatten := by
  intro ds
  induction ds with
  | nil => intro pf; rfl
  | cons d rest ih =>
    intro pf
    simp only [List.enumFrom_cons, List.map_cons, List.flatten_cons, List.map_append,
      ih (pf + 1), List.length_cons, List.range'_succ]
    rw [docLogs_map_progress]

/-- The per-document percentage blocks, in counter order and capped by
the final `100`, are sorted. -/
lemma sorted_progress_append (total : Nat) :
    ∀ (k pf : Nat), pf + k ≤ total →
      List.Sorted (· ≤ ·)
        ((((List.range' pf k).map (progressQuad total)).flatten) ++ [100]) := by
  intro k
  induction k with
  | zero => intro pf _; simp
  | succ n ih =>
    intro pf hle
    have htot : 0 < total := by omega
    have h1 : pf + 1 ≤ total := by omega
    rw [List.range'_succ, List.map_cons, List.flatten_cons, List.append_assoc]
    show List.Pairwise (· ≤ ·) _
    rw [List.pairwise_append]
    refine ⟨progressQuad_sorted total pf htot, ih (pf + 1) (by omega), ?_⟩
    intro x hx y hy
    rcases List.mem_append.mp hy with h2 | h2
    · obtain ⟨l, hl, hyl⟩ := List.mem_flatten.mp h2
      obtain ⟨j, hj, rfl⟩ := List.mem_map.mp hl
      have hjr : pf + 1 ≤ j := (List.mem_range'_1.mp hj).1
      exact progressQuad_cross total pf j htot hjr x hx y hyl
    · have hy100 : y = 100 := by simpa using h2
      rw [hy100]
      exact (progressQuad_bounds total pf h1 x hx).2

/-- C6 (counterexample): `processed_files` advances only on success, so
after a document fails, the next document's rows restart at a lower
percentage.  With two documents and the vector-store call failing for
the first, the run's percentages are `0, 15, 30, 45, 0, 15, 30, 45, 100`
— not non-decreasing. -/
theorem c6_progress_not_monotone :
    ((processWorkspace envFail1 "w" stTwoDocs).2.db.logs.map
        (fun e => e.progress_percent))
      = [0, 15, 30, 45, 0, 15, 30, 45, 100] ∧
    ¬ List.Sorted (· ≤ ·) ([0, 15, 30, 45, 0, 15, 30, 45, 100] : List ℚ) := by
  constructor
  · have h1 : ((processWorkspace envFail1 "w" stTwoDocs).2.db.logs.map
        (fun e => e.progress_percent))
        = [(0 : ℚ) / 2 * 100, ((0 : ℚ) + 3/10) / 2 * 100,
           ((0 : ℚ) + 6/10) / 2 * 100, ((0 : ℚ) + 9/10) / 2 * 100,
           (0 : ℚ) / 2 * 100, ((0 : ℚ) + 3/10) / 2 * 100,
           ((0 : ℚ) + 6/10) / 2 * 100, ((0 : ℚ) + 9/10) / 2 * 100,
           (100 : ℚ)] := rfl
    rw [h1]
    norm_num
  · decide

/-- C6 (amended): every percentage any run logs lies in `[0, 100]`
(all outcomes, failing documents and the fatal error entry included);
and the sequence of logged percentages is non-decreasing whenever every
pending document succeeds.  (With a failing non-final document the
sequence is not monotone, see the counterexample.) -/
theorem c6_progress_bounds_and_monotone (env : StageEnv)
    (workspace_id : String) (st : SysState) :
    (∃ ls, (processWorkspace env workspace_id st).2.db.logs = st.db.logs ++ ls ∧
      ∀ e ∈ ls, 0 ≤ e.progress_percent ∧ e.progress_percent ≤ 100) ∧
    (∀ w, getWorkspaceById st.db workspace_id = some w →
      (∀ d ∈ pendingDocs st.db workspace_id, ∃ n, docRun env w d = .ok n) →
      ∃ ls, (processWorkspace env workspace_id st).2.db.logs = st.db.logs ++ ls ∧
        List.Sorted (· ≤ ·) (ls.map (fun e => e.progress_percent))) := by
  constructor
  · rcases hgw : getWorkspaceById st.db workspace_id with _ | w
    · refine ⟨[logErrorEntry workspace_id "Workspace not found"], ?_, ?_⟩
      · simp [processWorkspace, hgw, SysState.after, addLog]
      · intro e he
        simp only [List.mem_singleton] at he
        subst he
        exact ⟨le_refl 0, by norm_num [logErrorEntry]⟩
    · cases hemp : (pendingDocs st.db workspace_id).isEmpty with
      | true =>
        refine ⟨[completedEntry workspace_id], ?_, ?_⟩
        · simp [processWorkspace, hgw, hemp, SysState.after, completeProcessing_logs]
        · intro e he
          simp only [List.mem_singleton] at he
          subst he
          exact ⟨by norm_num [completedEntry], le_refl 100⟩
      | false =>
        obtain ⟨ls, hls, hb⟩ := runLoop_logs_bounded env w
          (pendingDocs st.db workspace_id).length (pendingDocs st.db workspace_id)
          0 st.db (by omega)
        cases hrl : runLoop env w (pendingDocs st.db workspace_id).length
            (pendingDocs st.db workspace_id) 0 st.db with
        | inl dbh =>
          rw [hrl] at hls
          simp only [runDB] at hls
          refine ⟨ls, ?_, hb⟩
          simp [processWorkspace, hgw, hemp, hrl, SysState.after]
          exact hls
        | inr p =>
          obtain ⟨db2, pf2⟩ := p
          rw [hrl] at hls
          simp only [runDB] at hls
          refine ⟨ls ++ [completedEntry workspace_id], ?_, ?_⟩
          · simp [processWorkspace, hgw, hemp, hrl, SysState.after,
              completeProcessing_logs]
            rw [hls, List.append_assoc]
          · intro e he
            rcases List.mem_append.mp he with h2 | h2
            · exact hb e h2
            · simp only [List.mem_singleton] at h2
              subst h2
              exact ⟨by norm_num [completedEntry], le_refl 100⟩
  · intro w hw hok
    cases hemp : (pendingDocs st.db workspace_id).isEmpty with
    | true =>
      refine ⟨[completedEntry workspace_id], ?_, ?_⟩
      · simp [processWorkspace, hw, hemp, SysState.after, completeProcessing_logs]
      · simp
    | false =>
      obtain ⟨db2, hrun, hws, hdocs, hlogs⟩ := runLoop_allOk env w
        (pendingDocs st.db workspace_id).length (pendingDocs st.db workspace_id)
        0 st.db hok
      refine ⟨(((pendingDocs st.db workspace_id).enumFrom 0).map
          (fun p => docLogs w.id p.2.filename
            (pendingDocs st.db workspace_id).length p.1)).flatten
          ++ [completedEntry workspace_id], ?_, ?_⟩
      · simp [processWorkspace, hw, hemp, hrun, SysState.after,
          completeProcessing_logs]
        rw [hlogs, List.append_assoc]
      · rw [List.map_append, flatten_docLogs_progress]
        have hc : ([completedEntry workspace_id].map
            (fun e => e.progress_percent)) = [100] := rfl
        rw [hc]
        exact sorted_progress_append (pendingDocs st.db workspace_id).length
          (pendingDocs st.db workspace_id).length 0 (by omega)

/-- Witness for `c6_progress_bounds_and_monotone`, discharging the
all-success premise at a one-document workspace. -/
theorem c6_progress_bounds_and_monotone_witness :
    (∃ ls, (processWorkspace envTriv "w" stActive).2.db.logs
        = stActive.db.logs ++ ls ∧
      ∀ e ∈ ls, 0 ≤ e.progress_percent ∧ e.progress_percent ≤ 100) ∧
    (∃ ls, (processWorkspace envTriv "w" stActive).2.db.logs
        = stActive.db.logs ++ ls ∧
      List.Sorted (· ≤ ·) (ls.map (fun e => e.progress_percent))) :=
  ⟨(c6_progress_bounds_and_monotone envTriv "w" stActive).1,
    (c6_progress_bounds_and_monotone envTriv "w" stActive).2 wsA rfl
      (fun _ _ => ⟨0, rfl⟩)⟩
